import Mathlib

/-!
Verification of the qxfs protocol client engine (`QXfsStream` /
`QXfsSocketStream`).  The definitions below are a shallow embedding of the
C++ sources: `QVariantMap` messages become string-keyed association lists of
a small variant type, the per-request signal/slot lambdas installed by
`execute`, `cancel` and `getInfo` become explicit handler values run by a
dispatch function, and the process-wide registries (device list, command
queues, capability cache, warn-once set) become explicit state threaded
through the operations.
-/

namespace QXfs

/-- A `QVariant` value: only the shapes the engine inspects are modelled
(an invalid/absent variant, a string, and a nested map). -/
inductive Val where
  | vnone
  | vstr (s : String)
  | vmap (entries : List (String × Val))

/-- A `QVariantMap`: string-keyed field map, one entry per key. -/
abbrev VMap := List (String × Val)

/-- `m[k]` on a `QVariantMap`: the stored variant, or an invalid variant
when the key is absent. -/
def vget (m : VMap) (k : String) : Val :=
  (m.lookup k).getD Val.vnone

/-- `m.contains(k)`. -/
def vcontains (m : VMap) (k : String) : Bool :=
  (m.lookup k).isSome

/-- `QVariant == QString` comparison: true only when the variant holds
exactly that string. -/
def vstrEq : Val → String → Bool
  | .vstr t, s => t == s
  | _, _ => false

/-- `QVariant::toString()`: the held string, or `""` for other shapes. -/
def toStr : Val → String
  | .vstr s => s
  | _ => ""

/-- `QVariant::toMap()`: the held map, or the empty map for other shapes. -/
def toMapV : Val → VMap
  | .vmap m => m
  | _ => []

/-- `QMap<QString,QString>::insert` on the pending map: replace an existing
key or insert keeping keys sorted. -/
def pinsert (k v : String) : List (String × String) → List (String × String)
  | [] => [(k, v)]
  | (k', v') :: rest =>
    if k < k' then (k, v) :: (k', v') :: rest
    else if k == k' then (k, v) :: rest
    else (k', v') :: pinsert k v rest

/-- `QMap::remove` on the pending map (keys are unique, so removing the
first occurrence removes the entry). -/
def premove (k : String) : List (String × String) → List (String × String)
  | [] => []
  | (k', v') :: rest =>
    if k == k' then rest else (k', v') :: premove k rest

/-- One live per-request connection installed on the `message` signal:
the lambdas of `QXfsStream::execute`, `QXfsStream::cancel` and
`QXfsStream::getInfo`, each closing over its correlation id. -/
inductive Handler where
  | execH (msgid dwCommand : String) (lp : Val)
  | cancelH (msgid : String)
  | getInfoH (msgid category : String)

/-- The correlation id a handler is watching. -/
def hmsgid : Handler → String
  | .execH msgid _ _ => msgid
  | .cancelH msgid => msgid
  | .getInfoH msgid _ => msgid

/-- Observable state of one `QXfsStream`: its device identity
(`objectName()`), its pending-request map `m_pending`, and this identity's
slice of the global per-device command queue `commands`. -/
structure PState where
  ident : String
  pending : List (String × String)
  queue : List (String × Val)

/-- Signals emitted while dispatching one inbound message. -/
inductive Ev where
  | broadcastEv (target : String) (msg : VMap) (dwCommand : String) (lp : Val)
  | executeCompleteEv (msg : VMap)
  | executeEventEv (msg : VMap)
  | cancelCompleteEv (msg : VMap)
  | getInfoDoneEv (msgid : String) (rv : VMap)
  | warnEv (ident category hResult : String)
  | serviceEventEv (msg : VMap)
  | userEventEv (msg : VMap)
  | systemEventEv (msg : VMap) (dwCommand : String) (lp : Val)

/-- `QXfsStream::finishCommand`: pop the head of the identity's command
FIFO when it is non-empty. -/
def finishCommand (q : List (String × Val)) : List (String × Val) :=
  if q.isEmpty then q else q.tail

/-- `QXfsStream::currentCommand`: head of the identity's command FIFO, or
an empty pair. -/
def currentCommand (q : List (String × Val)) : String × Val :=
  match q with
  | [] => ("", Val.vnone)
  | c :: _ => c

/-- `QXfsStream::done`: pop the command FIFO head and drop the pending
entry for `msgid`. -/
def done (msgid : String) (st : PState) : PState :=
  { st with queue := finishCommand st.queue,
            pending := premove msgid st.pending }

/-- Run one per-request connection on one inbound message, mirroring the
three lambdas in `QXfsStream::execute`, `::cancel` and `::getInfo`.
Returns the surviving connection (`none` when the lambda disconnected
itself), the updated proxy state, and the signals it emitted.  `registry`
is the global `devices` list as object names. -/
def runHandler (registry : List String) (h : Handler) (st : PState)
    (msg : VMap) : Option Handler × PState × List Ev :=
  match h with
  | .execH msgid dwCommand lp =>
    if !vstrEq (vget msg "msgid") msgid then (some h, st, [])
    else
      let evs := (registry.filter (fun d => d == st.ident)).map
        (fun d => Ev.broadcastEv d msg dwCommand lp)
      if vstrEq (vget msg "hResult") "WFS_SUCCESS" then
        if vcontains msg "message" then
          if vstrEq (vget msg "message") "WFS_EXECUTE_COMPLETE" then
            (none, done msgid st, evs ++ [Ev.executeCompleteEv msg])
          else if vstrEq (vget msg "message") "WFS_EXECUTE_EVENT" then
            (some h, st, evs ++ [Ev.executeEventEv msg])
          else
            (some h, st, evs)
        else
          (some h, { st with queue := st.queue ++ [(dwCommand, lp)] }, evs)
      else
        (none, done msgid st, evs ++ [Ev.executeCompleteEv msg])
  | .cancelH msgid =>
    if !vstrEq (vget msg "msgid") msgid then (some h, st, [])
    else (none, done msgid st, [Ev.cancelCompleteEv msg])
  | .getInfoH msgid category =>
    if !vstrEq (vget msg "msgid") msgid then (some h, st, [])
    else if toStr (vget msg "hResult") == "WFS_SUCCESS" then
      if !vcontains msg "message" then (some h, st, [])
      else (none, done msgid st, [Ev.getInfoDoneEv msgid msg])
    else
      (none, done msgid st,
        [Ev.warnEv st.ident category (toStr (vget msg "hResult")),
         Ev.getInfoDoneEv msgid msg])

/-- Run every live per-request connection, in connection order, on one
message, threading the proxy state and keeping the survivors. -/
def dispatchHandlers (registry : List String) (hs : List Handler)
    (st : PState) (msg : VMap) : List Handler × PState × List Ev :=
  match hs with
  | [] => ([], st, [])
  | h :: rest =>
    let r := runHandler registry h st msg
    let r' := dispatchHandlers registry rest r.2.1 msg
    (r.1.toList ++ r'.1, r'.2.1, r.2.2 ++ r'.2.2)

/-- The classifier connected in the `QXfsStream` constructor: routes
service/user/system events; a system event is tagged with the identity's
current queued command. -/
def classifierEvents (st : PState) (msg : VMap) : List Ev :=
  let m := toStr (vget msg "message")
  if m == "WFS_SERVICE_EVENT" then [Ev.serviceEventEv msg]
  else if m == "WFS_USER_EVENT" then [Ev.userEventEv msg]
  else if m == "WFS_SYSTEM_EVENT" then
    let cmd := currentCommand st.queue
    [Ev.systemEventEv msg cmd.1 cmd.2]
  else []

/-- `emit message(msg)`: the constructor's classifier runs first (it was
connected first), then every per-request connection. -/
def emitMessage (registry : List String) (hs : List Handler) (st : PState)
    (msg : VMap) : List Handler × PState × List Ev :=
  let evs0 := classifierEvents st msg
  let r := dispatchHandlers registry hs st msg
  (r.1, r.2.1, evs0 ++ r.2.2)

/-- The failure frame `QXfsSocketStream::disconnected` synthesizes for one
pending entry. -/
def connectionLostMsg (k v : String) : VMap :=
  [("hResult", Val.vstr "WFS_ERR_CONNECTION_LOST"),
   ("msgid", Val.vstr k),
   ("dwCommandCode", Val.vstr v)]

/-- `QXfsSocketStream::disconnected`: snapshot the pending map and feed a
synthesized connection-lost failure for each entry through the normal
dispatch path. -/
def disconnected (registry : List String) (hs : List Handler)
    (st : PState) : List Handler × PState × List Ev :=
  st.pending.foldl
    (fun acc kv =>
      let r := emitMessage registry acc.1 acc.2.1 (connectionLostMsg kv.1 kv.2)
      (r.1, r.2.1, acc.2.2 ++ r.2.2))
    (hs, st, [])

/-- The connections watching correlation id `k`. -/
def handlersFor (hs : List Handler) (k : String) : List Handler :=
  hs.filter (fun h => hmsgid h == k)

/-- Is this signal a request-completion notification for id `k`? -/
def isCompletionFor (k : String) : Ev → Bool
  | .executeCompleteEv m => vstrEq (vget m "msgid") k
  | .cancelCompleteEv m => vstrEq (vget m "msgid") k
  | .getInfoDoneEv msgid _ => msgid == k
  | _ => false

/-- The payloads of the completion notifications for id `k` in an emitted
signal list. -/
def completionMsgsFor (k : String) (evs : List Ev) : List VMap :=
  (evs.filter (isCompletionFor k)).map
    (fun e => match e with
      | .executeCompleteEv m => m
      | .cancelCompleteEv m => m
      | .getInfoDoneEv _ m => m
      | _ => [])

/-- Is this signal an `executeEventBroadcasted` emission? -/
def isBroadcastEv : Ev → Bool
  | .broadcastEv _ _ _ _ => true
  | _ => false

/-! ## `syncCancel`

`QXfsStream::syncCancel` issues `cancel` and then blocks in a `QEventLoop`
with two connections (`c1` on `cancelComplete`, `c2` on `executeComplete`)
sharing a `finish` flag.  The wait is modelled as a fold over the sequence
of completion signals observed while blocked. -/

/-- One completion signal observed by a blocked `syncCancel`. -/
inductive SigEv where
  | cancelSig (msg : VMap)
  | execSig (msg : VMap)

/-- The state of the blocking wait: the `finish` flag, whether each of the
two connections is still connected, and whether `loop.exit` ran. -/
structure WaitSt where
  finish : Bool
  c1 : Bool
  c2 : Bool
  exited : Bool

/-- Initial wait state: `finish = reqMsgId.isEmpty()`. -/
def waitInit (reqMsgId : String) : WaitSt :=
  ⟨reqMsgId.isEmpty, true, true, false⟩

/-- One signal delivery to the two `syncCancel` lambdas.  `msgid` is the
cancel request's own id, `reqMsgId` the target execute id (possibly
empty).  After `loop.exit` the loop no longer runs, so the state is
frozen. -/
def waitStep (msgid reqMsgId : String) (s : WaitSt) (e : SigEv) : WaitSt :=
  if s.exited then s else
  match e with
  | .cancelSig m =>
    if !s.c1 || !vstrEq (vget m "msgid") msgid then s
    else
      let s' := { s with c1 := false }
      if s'.finish || !vstrEq (vget m "hResult") "WFS_SUCCESS" then
        { s' with exited := true }
      else { s' with finish := true }
  | .execSig m =>
    if !s.c2 || !vstrEq (vget m "msgid") reqMsgId then s
    else
      let s' := { s with c2 := false }
      if s'.finish then { s' with exited := true }
      else { s' with finish := true }

/-- The whole wait over a list of observed completion signals. -/
def waitRun (msgid reqMsgId : String) (evs : List SigEv) : WaitSt :=
  evs.foldl (waitStep msgid reqMsgId) (waitInit reqMsgId)

/-- Did this signal satisfy the `c1` match (a cancellation reply for
`msgid`)? -/
def isCancelFor (msgid : String) : SigEv → Bool
  | .cancelSig m => vstrEq (vget m "msgid") msgid
  | _ => false

/-- Did this signal satisfy the `c2` match (an execute completion for the
target id)? -/
def isExecFor (reqMsgId : String) : SigEv → Bool
  | .execSig m => vstrEq (vget m "msgid") reqMsgId
  | _ => false

/-- A matching cancellation reply whose `hResult` is not the success
code. -/
def isFailedCancelFor (msgid : String) : SigEv → Bool
  | .cancelSig m =>
    vstrEq (vget m "msgid") msgid && !vstrEq (vget m "hResult") "WFS_SUCCESS"
  | _ => false

/-- Invariant of the `syncCancel` wait loop over the signals seen so far
(used for a non-empty target id, so the `finish` flag starts false):
a disconnected `c1`/`c2` means its matching reply was seen, a raised
`finish` flag means one of the two fired, and a loop exit means the
cancellation reply was seen and either it failed or the target execute
completion was also seen. -/
def WaitInv (msgid reqMsgId : String) (seen : List SigEv) (s : WaitSt) : Prop :=
  (s.c1 = false → seen.any (isCancelFor msgid) = true)
  ∧ (s.c2 = false → seen.any (isExecFor reqMsgId) = true)
  ∧ (s.finish = true → s.c1 = false ∨ s.c2 = false)
  ∧ (s.exited = true → seen.any (isCancelFor msgid) = true ∧
      (seen.any (isFailedCancelFor msgid) = true
        ∨ seen.any (isExecFor reqMsgId) = true))

/-- Invariant of the wait loop for an empty target id: `finish` starts
(and stays) true, and the loop exits exactly when a matching cancellation
reply has been seen. -/
def WaitInvNT (msgid : String) (seen : List SigEv) (s : WaitSt) : Prop :=
  s.finish = true ∧ s.c1 = !s.exited
  ∧ s.exited = seen.any (isCancelFor msgid)

/-- `QXfsStream::cancel`: fails with an empty id when the connection
cannot be established; otherwise installs its completion lambda, records
the fresh id as pending (mapped to the empty command), and writes the
cancel frame.  `connected` models the outcome of `connectToServer`,
`uuid` the freshly generated id. -/
def cancel (connected : Bool) (uuid : String) (hs : List Handler)
    (st : PState) : Option String × List Handler × PState :=
  if !connected then (none, hs, st)
  else (some uuid, hs ++ [Handler.cancelH uuid],
        { st with pending := pinsert uuid "" st.pending })

/-- `QXfsStream::syncCancel`: issue `cancel`; on failure return `false`;
otherwise block on the wait loop and return `true` unconditionally. -/
def syncCancel (connected : Bool) (uuid reqMsgId : String)
    (hs : List Handler) (st : PState) (evs : List SigEv) : Bool :=
  match cancel connected uuid hs st with
  | (none, _, _) => false
  | (some msgid, _, _) =>
    let _ := waitRun msgid reqMsgId evs
    true

/-! ## `getInfo`

`QXfsStream::getInfo` sends a `WFSGetInfo` request and blocks in a
`QEventLoop` until its lambda fires `loop.exit`, at which point the reply
message is the return value.  The blocking loop is modelled as a scan over
the inbound messages observed while blocked. -/

/-- The blocking loop of `getInfo`: feed inbound messages to the request's
lambda until it finalizes; the result is the reply it stored in `rv`
together with the proxy state and emitted signals at that point, or `none`
when the stream ends without the loop exiting. -/
def getInfoAwait (msgid category : String) (st : PState) :
    List VMap → Option (VMap × PState × List Ev)
  | [] => none
  | m :: rest =>
    match runHandler [] (.getInfoH msgid category) st m with
    | (some _, st', _) => getInfoAwait msgid category st' rest
    | (none, st', evs) => some (m, st', evs)

/-! ## Capability cache

`QXfsStream::capabilities` / `::getCapabilities` over the process-wide
`m_capabilities` map. -/

/-- `m_capabilities[ident]` (default-constructed empty map when absent). -/
def cacheGet (cache : List (String × VMap)) (ident : String) : VMap :=
  (cache.lookup ident).getD []

/-- Store a capability snapshot for `ident`. -/
def cacheInsert (ident : String) (v : VMap) :
    List (String × VMap) → List (String × VMap)
  | [] => [(ident, v)]
  | (k, w) :: rest =>
    if ident == k then (ident, v) :: rest
    else (k, w) :: cacheInsert ident v rest

/-- `QXfsStream::getCapabilities`: one backend `getInfo` round trip whose
reply is `data`; the cache is updated only when the reply carries an
`lpBuffer` field. -/
def getCapabilities (cache : List (String × VMap)) (ident : String)
    (data : VMap) : List (String × VMap) :=
  if vcontains data "lpBuffer" then
    cacheInsert ident (toMapV (vget data "lpBuffer")) cache
  else cache

/-- `QXfsStream::capabilities`: return the cached snapshot, querying the
backend first when the cached value is empty.  The third component counts
backend queries issued by this call. -/
def capabilities (cache : List (String × VMap)) (ident : String)
    (data : VMap) : VMap × List (String × VMap) × Nat :=
  let caps := cacheGet cache ident
  if caps.isEmpty then
    let cache' := getCapabilities cache ident data
    (cacheGet cache' ident, cache', 1)
  else (caps, cache, 0)

/-! ## Transport: `QXfsSocketStream` -/

/-- The socket object `createSocket` allocates. -/
inductive Sock where
  | localSock (serverName : String)
  | netSock (isSsl : Bool) (host : String) (port : Nat)

/-- `QString::startsWith`. -/
def strStarts (s pre : String) : Bool :=
  pre.data.isPrefixOf s.data

/-- `QString::split` on one separator character, keeping empty parts. -/
def splitCharAux (sep : Char) : List Char → List Char → List (List Char)
  | [], acc => [acc.reverse]
  | c :: rest, acc =>
    if c == sep then acc.reverse :: splitCharAux sep rest []
    else splitCharAux sep rest (c :: acc)

/-- `QString::split(":")`. -/
def splitColon (s : String) : List String :=
  (splitCharAux ':' s.data []).map (fun l => ⟨l⟩)

/-- Decimal digit accumulation for `QString::toUInt`. -/
def toNatAux : List Char → Nat → Option Nat
  | [], acc => some acc
  | c :: rest, acc =>
    if 48 ≤ c.toNat && c.toNat ≤ 57 then
      toNatAux rest (acc * 10 + (c.toNat - 48))
    else none

/-- `QString::toUInt` with an out-parameter `ok`, as an `Option`
(the 32-bit overflow rejection is elided; all addresses in the claims use
small ports). -/
def toUIntQ (s : String) : Option Nat :=
  match s.data with
  | [] => none
  | l => toNatAux l 0

/-- `QXfsSocketStream::createSocket`: classify the address, allocate and
start connecting the matching socket kind, or log a critical message and
return a null socket for an unrecognized form.  The second component
counts `qCritical` log lines emitted by this call.  The port is stored in
a `quint16`, hence the reduction modulo `65536`. -/
def createSocket (deviceAddress deviceId : String) : Option Sock × Nat :=
  if deviceAddress == "local" then
    (some (.localSock ("printec.ndc.device." ++ deviceId)), 0)
  else if strStarts deviceAddress "tcp://" || strStarts deviceAddress "ssl://" then
    let isSsl := strStarts deviceAddress "ssl://"
    let l := splitColon ⟨deviceAddress.data.drop 6⟩
    if l.length != 2 then (none, 1)
    else
      match toUIntQ (l.getD 1 "") with
      | none => (none, 1)
      | some u => (some (.netSock isSsl (l.getD 0 "") (u % 65536)), 0)
  else (none, 1)

/-- The `Q_ASSERT(m_io)` in the `QXfsStream` constructor: the proxy can
only be constructed over a non-null transport. -/
def assertIo (io : Option Sock) : Bool :=
  io.isSome

/-- `QXfsSocketStream::connectToServer`: on a connect/handshake failure
(`netOk = false`) return `false` and log a warning only when the device
identity is not yet in the process-wide warn-once set.  Returns the
result, the updated warn-once set, and the number of warnings logged. -/
def connectToServer (netOk : Bool) (ident : String)
    (warnSet : List String) : Bool × List String × Nat :=
  if netOk then (true, warnSet, 0)
  else if warnSet.contains ident then (false, warnSet, 0)
  else (false, ident :: warnSet, 1)

/-- Repeated connect attempts for one device identity, threading the
warn-once set; returns the final set and the total warnings logged. -/
def runAttempts (ident : String) (warnSet : List String) :
    List Bool → List String × Nat
  | [] => (warnSet, 0)
  | ok :: rest =>
    let r := connectToServer ok ident warnSet
    let r' := runAttempts ident r.2.1 rest
    (r'.1, r.2.2 + r'.2)

/-! ## Frame codec

Modelled from the spec: the wire format produced by `QDataStream`
(`ds << cmd` / `ds >> msg` in `QXfsStream::send` and `::readyRead`) is Qt
library code that is not part of this repository.  Per the spec it is a
self-describing, big-endian serialization of the field map (type-tagged
values, nested maps permitted), length-framed so that decoding is
transactional: the frame body is preceded by its big-endian 32-bit byte
length, strings are a 32-bit element count followed by 32-bit code points,
and a value is a one-byte tag (0 invalid, 1 string, 2 map) followed by its
payload.  `readyRead`'s start/commit-transaction loop is translated from
the source over this codec. -/

/-- Big-endian 32-bit encoding of a number below `2^32`. -/
def encodeNat32 (n : Nat) : List Nat :=
  [n / 2 ^ 24 % 256, n / 2 ^ 16 % 256, n / 2 ^ 8 % 256, n % 256]

/-- Decode a big-endian 32-bit number; fails on fewer than four bytes. -/
def parseNat32 : List Nat → Option (Nat × List Nat)
  | b0 :: b1 :: b2 :: b3 :: r =>
    some (((b0 * 256 + b1) * 256 + b2) * 256 + b3, r)
  | _ => none

/-- Serialize a character sequence as 32-bit big-endian code points. -/
def serializeChars : List Char → List Nat
  | [] => []
  | c :: rest => encodeNat32 c.toNat ++ serializeChars rest

/-- Serialize a string: element count then code points. -/
def serializeStr (s : String) : List Nat :=
  encodeNat32 s.data.length ++ serializeChars s.data

/-- Parse `n` code points back into characters. -/
def parseChars : Nat → List Nat → Option (List Char × List Nat)
  | 0, r => some ([], r)
  | n + 1, r =>
    match parseNat32 r with
    | none => none
    | some (cp, r1) =>
      match parseChars n r1 with
      | none => none
      | some (cs, r2) => some (Char.ofNat cp :: cs, r2)

/-- Parse a serialized string. -/
def parseStr (buf : List Nat) : Option (String × List Nat) :=
  match parseNat32 buf with
  | none => none
  | some (n, r) =>
    match parseChars n r with
    | none => none
    | some (cs, r1) => some (⟨cs⟩, r1)

mutual

/-- Serialize one variant value: tag byte then payload. -/
def serializeVal : Val → List Nat
  | .vnone => [0]
  | .vstr s => 1 :: serializeStr s
  | .vmap m => 2 :: (encodeNat32 m.length ++ serializePairs m)

/-- Serialize the key/value pairs of a map in order. -/
def serializePairs : List (String × Val) → List Nat
  | [] => []
  | (k, v) :: rest => serializeStr k ++ serializeVal v ++ serializePairs rest

end

/-- Serialize a field map: entry count then pairs. -/
def serializeVMap (m : VMap) : List Nat :=
  encodeNat32 m.length ++ serializePairs m

/-- Parse `n` key/value pairs, with the value parser supplied as a
parameter (instantiated one nesting level down). -/
def parsePairsWith (pv : List Nat → Option (Val × List Nat)) :
    Nat → List Nat → Option (List (String × Val) × List Nat)
  | 0, r => some ([], r)
  | n + 1, r =>
    match parseStr r with
    | none => none
    | some (k, r1) =>
      match pv r1 with
      | none => none
      | some (v, r2) =>
        match parsePairsWith pv n r2 with
        | none => none
        | some (m, r3) => some ((k, v) :: m, r3)

/-- Parse one variant value.  The fuel bounds the map-nesting depth; it
decreases when descending into a nested map. -/
def parseVal : Nat → List Nat → Option (Val × List Nat)
  | 0, _ => none
  | fuel + 1, buf =>
    match buf with
    | 0 :: r => some (.vnone, r)
    | 1 :: r =>
      match parseStr r with
      | none => none
      | some (s, r1) => some (.vstr s, r1)
    | 2 :: r =>
      match parseNat32 r with
      | none => none
      | some (n, r1) =>
        match parsePairsWith (parseVal fuel) n r1 with
        | none => none
        | some (m, r2) => some (.vmap m, r2)
    | _ => none

/-- Parse `n` key/value pairs at nesting-depth budget `fuel`. -/
def parsePairs (fuel : Nat) : Nat → List Nat → Option (List (String × Val) × List Nat) :=
  parsePairsWith (parseVal fuel)

/-- Parse a serialized field map. -/
def parseVMap (fuel : Nat) (buf : List Nat) : Option (VMap × List Nat) :=
  match parseNat32 buf with
  | none => none
  | some (n, r) => parsePairs fuel n r

/-- Encode one message as a complete frame: the body preceded by its
big-endian 32-bit byte length. -/
def encodeFrame (m : VMap) : List Nat :=
  encodeNat32 (serializeVMap m).length ++ serializeVMap m

/-- One decode attempt on the buffered stream.  Fails — consuming
nothing — unless a whole frame (length prefix plus a body of that many
bytes parsing to a message) is present. -/
def decodeFrame (buf : List Nat) : Option (VMap × List Nat) :=
  match parseNat32 buf with
  | none => none
  | some (len, r) =>
    if len ≤ r.length then
      match parseVMap (len + 1) (r.take len) with
      | some (m, []) => some (m, r.drop len)
      | _ => none
    else none

/-- `ds.startTransaction(); ds >> msg; ds.commitTransaction()`: on failure
the stream position is rolled back, so the buffer is returned untouched. -/
def decodeAttempt (buf : List Nat) : Option VMap × List Nat :=
  match decodeFrame buf with
  | some (m, r) => (some m, r)
  | none => (none, buf)

/-- The body of `QXfsStream::readyRead`, with explicit fuel (a successful
decode always consumes at least the four length bytes, so `buf.length`
fuel suffices). -/
def readyReadAux : Nat → List Nat → List VMap × List Nat
  | 0, buf => ([], buf)
  | fuel + 1, buf =>
    match decodeFrame buf with
    | none => ([], buf)
    | some (m, r) =>
      let p := readyReadAux fuel r
      (m :: p.1, p.2)

/-- `QXfsStream::readyRead`: decode and dispatch complete frames one at a
time until no complete frame remains, then return leaving the partial
remainder buffered. -/
def readyRead (buf : List Nat) : List VMap × List Nat :=
  readyReadAux buf.length buf

mutual

/-- Map-nesting depth of a value, as the fuel `parseVal` needs. -/
def depthVal : Val → Nat
  | .vnone => 0
  | .vstr _ => 0
  | .vmap m => depthPairs m

/-- Fuel needed to parse a pair list. -/
def depthPairs : List (String × Val) → Nat
  | [] => 0
  | (_, v) :: rest => max (depthVal v + 1) (depthPairs rest)

end

mutual

/-- Well-formedness for the 32-bit count fields: every string and map in
the value is shorter than `2^32`. -/
def wfVal : Val → Bool
  | .vnone => true
  | .vstr s => s.data.length < 2 ^ 32
  | .vmap m => m.length < 2 ^ 32 && wfPairs m

/-- Well-formedness of a pair list. -/
def wfPairs : List (String × Val) → Bool
  | [] => true
  | (k, v) :: rest => k.data.length < 2 ^ 32 && wfVal v && wfPairs rest

end

/-- Well-formedness of a whole message frame: all counts below `2^32`,
including the frame length itself. -/
def wfFrame (m : VMap) : Prop :=
  m.length < 2 ^ 32 ∧ wfPairs m = true ∧ (serializeVMap m).length < 2 ^ 32

/-! ## Helper lemmas -/

theorem vcontains_of_vstrEq {m : VMap} {k s : String}
    (h : vstrEq (vget m k) s = true) : vcontains m k = true := by
  cases hl : m.lookup k with
  | none =>
    simp only [vget, hl, Option.getD, vstrEq] at h
    exact Bool.noConfusion h
  | some v => simp [vcontains, hl]

theorem vstrEq_ne {v : Val} {s t : String}
    (h : vstrEq v s = true) (hne : s ≠ t) : vstrEq v t = false := by
  cases v with
  | vstr u =>
    simp only [vstrEq, beq_iff_eq] at h
    simp only [vstrEq, beq_eq_false_iff_ne, ne_eq]
    subst h
    exact hne
  | vnone => rfl
  | vmap m => rfl

theorem lookup_none_of_not_mem_keys {k : String} {l : List (String × String)}
    (h : k ∉ l.map Prod.fst) : l.lookup k = none := by
  induction l with
  | nil => rfl
  | cons kv rest ih =>
    simp only [List.map_cons, List.mem_cons, not_or] at h
    cases hb : (k == kv.1) with
    | true => exact absurd (beq_iff_eq.mp hb) h.1
    | false =>
      simp only [List.lookup, hb]
      exact ih h.2

theorem premove_lookup_none {k : String} {l : List (String × String)}
    (h : (l.map Prod.fst).Nodup) : (premove k l).lookup k = none := by
  induction l with
  | nil => rfl
  | cons kv rest ih =>
    simp only [List.map_cons, List.nodup_cons] at h
    by_cases hk : k = kv.1
    · have hb : (k == kv.1) = true := beq_iff_eq.mpr hk
      simp only [premove, hb, if_true]
      exact lookup_none_of_not_mem_keys (hk ▸ h.1)
    · have hb : (k == kv.1) = false := beq_eq_false_iff_ne.mpr hk
      simp only [premove, hb, Bool.false_eq_true, if_false, List.lookup, hb]
      exact ih h.2

/-! ## C1: the execute-reply completion protocol -/

/-- C1: for an inbound frame matching a pending execute request:
a failure `hResult` completes the request as a failure (one
`executeComplete` with the failure message) and removes the pending
entry; a success with the execute-complete marker completes it as a
success and removes the pending entry; a success with the
intermediate-event marker notifies subscribers and leaves the pending
entry; a success with no category marker appends `(code, payload)` to the
device identity's command queue and leaves the pending entry. -/
theorem execute_reply_protocol (registry : List String) (st : PState)
    (msgid dwCommand : String) (lp : Val) (msg : VMap)
    (hm : vstrEq (vget msg "msgid") msgid = true) :
    (vstrEq (vget msg "hResult") "WFS_SUCCESS" = false →
      runHandler registry (.execH msgid dwCommand lp) st msg
        = (none, done msgid st,
           (registry.filter (fun d => d == st.ident)).map
             (fun d => Ev.broadcastEv d msg dwCommand lp)
           ++ [Ev.executeCompleteEv msg]))
  ∧ (vstrEq (vget msg "hResult") "WFS_SUCCESS" = true →
     vstrEq (vget msg "message") "WFS_EXECUTE_COMPLETE" = true →
      runHandler registry (.execH msgid dwCommand lp) st msg
        = (none, done msgid st,
           (registry.filter (fun d => d == st.ident)).map
             (fun d => Ev.broadcastEv d msg dwCommand lp)
           ++ [Ev.executeCompleteEv msg]))
  ∧ (vstrEq (vget msg "hResult") "WFS_SUCCESS" = true →
     vstrEq (vget msg "message") "WFS_EXECUTE_EVENT" = true →
      runHandler registry (.execH msgid dwCommand lp) st msg
        = (some (.execH msgid dwCommand lp), st,
           (registry.filter (fun d => d == st.ident)).map
             (fun d => Ev.broadcastEv d msg dwCommand lp)
           ++ [Ev.executeEventEv msg]))
  ∧ (vstrEq (vget msg "hResult") "WFS_SUCCESS" = true →
     vcontains msg "message" = false →
      runHandler registry (.execH msgid dwCommand lp) st msg
        = (some (.execH msgid dwCommand lp),
           { st with queue := st.queue ++ [(dwCommand, lp)] },
           (registry.filter (fun d => d == st.ident)).map
             (fun d => Ev.broadcastEv d msg dwCommand lp)))
  ∧ ((st.pending.map Prod.fst).Nodup →
      ((done msgid st).pending.lookup msgid) = none) := by
  refine ⟨?_, ?_, ?_, ?_, ?_⟩
  · intro hf
    simp [runHandler, hm, hf]
  · intro hs hc
    have hcont := vcontains_of_vstrEq hc
    simp [runHandler, hm, hs, hc, hcont]
  · intro hs he
    have hcont := vcontains_of_vstrEq he
    have hne : vstrEq (vget msg "message") "WFS_EXECUTE_COMPLETE" = false :=
      vstrEq_ne he (by decide)
    simp [runHandler, hm, hs, he, hne, hcont]
  · intro hs hnc
    simp [runHandler, hm, hs, hnc]
  · intro hnodup
    exact premove_lookup_none hnodup

/-- Witness for C1 at a concrete failure reply. -/
theorem execute_reply_protocol_witness :
    vstrEq (vget [("msgid", Val.vstr "m1"), ("hResult", Val.vstr "WFS_ERR_HW")]
      "msgid") "m1" = true ∧
    (vstrEq (vget [("msgid", Val.vstr "m1"), ("hResult", Val.vstr "WFS_ERR_HW")]
      "hResult") "WFS_SUCCESS" = false →
      runHandler ["dev1"] (.execH "m1" "EJECT" Val.vnone)
        ⟨"dev1", [("m1", "EJECT")], [("EJECT", Val.vnone)]⟩
        [("msgid", Val.vstr "m1"), ("hResult", Val.vstr "WFS_ERR_HW")]
        = (none, done "m1" ⟨"dev1", [("m1", "EJECT")], [("EJECT", Val.vnone)]⟩,
           ((["dev1"].filter (fun d => d == "dev1")).map
             (fun d => Ev.broadcastEv d
               [("msgid", Val.vstr "m1"), ("hResult", Val.vstr "WFS_ERR_HW")]
               "EJECT" Val.vnone))
           ++ [Ev.executeCompleteEv
               [("msgid", Val.vstr "m1"), ("hResult", Val.vstr "WFS_ERR_HW")]])) :=
  ⟨by rfl,
   (execute_reply_protocol ["dev1"]
      ⟨"dev1", [("m1", "EJECT")], [("EJECT", Val.vnone)]⟩
      "m1" "EJECT" Val.vnone
      [("msgid", Val.vstr "m1"), ("hResult", Val.vstr "WFS_ERR_HW")]
      (by rfl)).1⟩

/-! ## C9: every finalization pops the shared command-FIFO head -/

/-- C9: finalizing any pending request — an execute completion (failure or
success), a cancel completion, or a getInfo completion (success with
marker or failure) — runs `done`, which besides dropping the pending entry
removes the head of the device identity's command FIFO whenever that FIFO
is non-empty, even for requests (such as cancels) that never appended a
queued command. -/
theorem finalize_pops_queue_head (registry : List String) (st : PState)
    (msgid dwCommand category : String) (lp : Val) (msg : VMap)
    (hm : vstrEq (vget msg "msgid") msgid = true) :
    ((runHandler registry (.cancelH msgid) st msg).2.1
       = done msgid st)
  ∧ (vstrEq (vget msg "hResult") "WFS_SUCCESS" = false →
      (runHandler registry (.execH msgid dwCommand lp) st msg).2.1
        = done msgid st)
  ∧ (vstrEq (vget msg "hResult") "WFS_SUCCESS" = true →
     vstrEq (vget msg "message") "WFS_EXECUTE_COMPLETE" = true →
      (runHandler registry (.execH msgid dwCommand lp) st msg).2.1
        = done msgid st)
  ∧ (toStr (vget msg "hResult") ≠ "WFS_SUCCESS" →
      (runHandler registry (.getInfoH msgid category) st msg).2.1
        = done msgid st)
  ∧ (toStr (vget msg "hResult") = "WFS_SUCCESS" →
     vcontains msg "message" = true →
      (runHandler registry (.getInfoH msgid category) st msg).2.1
        = done msgid st)
  ∧ (st.queue ≠ [] → (done msgid st).queue = st.queue.tail)
  ∧ ((done msgid st).pending = premove msgid st.pending) := by
  refine ⟨?_, ?_, ?_, ?_, ?_, ?_, rfl⟩
  · simp [runHandler, hm]
  · intro hf
    simp [runHandler, hm, hf]
  · intro hs hc
    have hcont := vcontains_of_vstrEq hc
    simp [runHandler, hm, hs, hc, hcont]
  · intro hf
    have hf' : (toStr (vget msg "hResult") == "WFS_SUCCESS") = false :=
      beq_eq_false_iff_ne.mpr hf
    simp [runHandler, hm, hf']
  · intro hs hc
    have hs' : (toStr (vget msg "hResult") == "WFS_SUCCESS") = true :=
      beq_iff_eq.mpr hs
    simp [runHandler, hm, hs', hc]
  · intro hne
    have : st.queue.isEmpty = false := by
      cases hq : st.queue with
      | nil => exact absurd hq hne
      | cons a l => rfl
    simp [done, finishCommand, this]

/-- Witness for C9: a cancel completion pops the FIFO head a different
request queued. -/
theorem finalize_pops_queue_head_witness :
    vstrEq (vget [("msgid", Val.vstr "c1"), ("hResult", Val.vstr "WFS_SUCCESS")]
      "msgid") "c1" = true ∧
    ((runHandler [] (.cancelH "c1")
        ⟨"dev1", [("c1", ""), ("m1", "EJECT")], [("EJECT", Val.vnone)]⟩
        [("msgid", Val.vstr "c1"), ("hResult", Val.vstr "WFS_SUCCESS")]).2.1
      = done "c1" ⟨"dev1", [("c1", ""), ("m1", "EJECT")], [("EJECT", Val.vnone)]⟩) :=
  ⟨by rfl,
   (finalize_pops_queue_head [] ⟨"dev1", [("c1", ""), ("m1", "EJECT")],
      [("EJECT", Val.vnone)]⟩ "c1" "EJECT" "CAT" Val.vnone
      [("msgid", Val.vstr "c1"), ("hResult", Val.vstr "WFS_SUCCESS")]
      (by rfl)).1⟩

/-! ## C5: completion broadcast fan-out -/

theorem filter_broadcast_map (l : List String) (msg : VMap)
    (dwCommand : String) (lp : Val) :
    (l.map (fun d => Ev.broadcastEv d msg dwCommand lp)).filter isBroadcastEv
      = l.map (fun d => Ev.broadcastEv d msg dwCommand lp) := by
  induction l with
  | nil => rfl
  | cons d rest ih => simp [isBroadcastEv, ih]

/-- C5: when an execute request completes (failure `hResult`, or success
with the execute-complete marker), the broadcast notifications emitted are
exactly one `executeEventBroadcasted` — carrying the completion message
and the original command code and payload — per live registry entry whose
device identity equals the originator's; in particular every such sibling
instance receives one. -/
theorem execute_completion_broadcast (registry : List String) (st : PState)
    (msgid dwCommand : String) (lp : Val) (msg : VMap)
    (hm : vstrEq (vget msg "msgid") msgid = true)
    (hdone : vstrEq (vget msg "hResult") "WFS_SUCCESS" = false ∨
             vstrEq (vget msg "message") "WFS_EXECUTE_COMPLETE" = true) :
    ((runHandler registry (.execH msgid dwCommand lp) st msg).2.2.filter
        isBroadcastEv
      = (registry.filter (fun d => d == st.ident)).map
          (fun d => Ev.broadcastEv d msg dwCommand lp))
  ∧ ∀ d ∈ registry, d = st.ident →
      Ev.broadcastEv d msg dwCommand lp
        ∈ (runHandler registry (.execH msgid dwCommand lp) st msg).2.2 := by
  have hevs : ∃ tail, (runHandler registry (.execH msgid dwCommand lp) st msg).2.2
      = (registry.filter (fun d => d == st.ident)).map
          (fun d => Ev.broadcastEv d msg dwCommand lp) ++ tail
      ∧ tail.filter isBroadcastEv = [] := by
    cases hs : vstrEq (vget msg "hResult") "WFS_SUCCESS" with
    | false =>
      exact ⟨[Ev.executeCompleteEv msg], by simp [runHandler, hm, hs],
        by simp [isBroadcastEv]⟩
    | true =>
      have hc : vstrEq (vget msg "message") "WFS_EXECUTE_COMPLETE" = true := by
        cases hdone with
        | inl h => exact absurd hs (h ▸ Bool.false_ne_true)
        | inr h => exact h
      have hcont := vcontains_of_vstrEq hc
      exact ⟨[Ev.executeCompleteEv msg], by simp [runHandler, hm, hs, hc, hcont],
        by simp [isBroadcastEv]⟩
  obtain ⟨tail, hev, htail⟩ := hevs
  constructor
  · rw [hev, List.filter_append, htail, List.append_nil, filter_broadcast_map]
  · intro d hd hdi
    rw [hev]
    refine List.mem_append_left _ ?_
    exact List.mem_map_of_mem _ (List.mem_filter.mpr ⟨hd, by simp [hdi]⟩)

/-- Witness for C5: two live instances with the same identity both receive
the broadcast for a completion observed by one of them. -/
theorem execute_completion_broadcast_witness :
    vstrEq (vget [("msgid", Val.vstr "m1"), ("hResult", Val.vstr "WFS_ERR_HW")]
      "msgid") "m1" = true ∧
    ((runHandler ["devA", "devA", "devB"] (.execH "m1" "EJECT" Val.vnone)
        ⟨"devA", [("m1", "EJECT")], []⟩
        [("msgid", Val.vstr "m1"), ("hResult", Val.vstr "WFS_ERR_HW")]).2.2.filter
          isBroadcastEv
      = (["devA", "devA", "devB"].filter (fun d => d == "devA")).map
          (fun d => Ev.broadcastEv d
            [("msgid", Val.vstr "m1"), ("hResult", Val.vstr "WFS_ERR_HW")]
            "EJECT" Val.vnone)) :=
  ⟨by rfl,
   (execute_completion_broadcast ["devA", "devA", "devB"]
      ⟨"devA", [("m1", "EJECT")], []⟩ "m1" "EJECT" Val.vnone
      [("msgid", Val.vstr "m1"), ("hResult", Val.vstr "WFS_ERR_HW")]
      (by rfl) (Or.inl (by rfl))).1⟩

/-! ## C4: `getInfo` on a failure reply -/

theorem vstrEq_of_vnone_ne {m : VMap} {k : String} {s : String}
    (h : m = []) : vstrEq (vget m k) s = false := by
  subst h
  rfl

/-- C4 counterexample: on a failure reply `getInfo` stores the reply
message itself in `rv` — a non-empty map — before exiting its loop, so it
does not return an empty result map. -/
theorem getInfo_failure_empty_result_cex :
    getInfoAwait "g1" "WFS_INF_IDC_STATUS"
      ⟨"dev1", [("g1", "WFS_INF_IDC_STATUS")], []⟩
      [[("msgid", Val.vstr "g1"), ("hResult", Val.vstr "WFS_ERR_HARDWARE")]]
      = some ([("msgid", Val.vstr "g1"), ("hResult", Val.vstr "WFS_ERR_HARDWARE")],
          done "g1" ⟨"dev1", [("g1", "WFS_INF_IDC_STATUS")], []⟩,
          [Ev.warnEv "dev1" "WFS_INF_IDC_STATUS" "WFS_ERR_HARDWARE",
           Ev.getInfoDoneEv "g1"
             [("msgid", Val.vstr "g1"), ("hResult", Val.vstr "WFS_ERR_HARDWARE")]])
    ∧ [("msgid", Val.vstr "g1"), ("hResult", Val.vstr "WFS_ERR_HARDWARE")]
        ≠ ([] : VMap) := by
  exact ⟨by rfl, List.cons_ne_nil _ _⟩

/-- C4 (amended): when the matching reply frame carries a failure
`hResult`, `getInfo` logs a warning naming the device, the category and
the failure cause, finalizes the pending request, and returns the failure
reply message itself (a non-empty map) as its result — it does not signal
an error, but it does not return an empty map either. -/
theorem getInfo_failure_returns_reply (st : PState)
    (msgid category : String) (msg : VMap) (rest : List VMap)
    (hm : vstrEq (vget msg "msgid") msgid = true)
    (hf : toStr (vget msg "hResult") ≠ "WFS_SUCCESS") :
    runHandler [] (.getInfoH msgid category) st msg
      = (none, done msgid st,
         [Ev.warnEv st.ident category (toStr (vget msg "hResult")),
          Ev.getInfoDoneEv msgid msg])
    ∧ getInfoAwait msgid category st (msg :: rest)
      = some (msg, done msgid st,
         [Ev.warnEv st.ident category (toStr (vget msg "hResult")),
          Ev.getInfoDoneEv msgid msg])
    ∧ msg ≠ [] := by
  have hf' : (toStr (vget msg "hResult") == "WFS_SUCCESS") = false :=
    beq_eq_false_iff_ne.mpr hf
  have hrun : runHandler [] (.getInfoH msgid category) st msg
      = (none, done msgid st,
         [Ev.warnEv st.ident category (toStr (vget msg "hResult")),
          Ev.getInfoDoneEv msgid msg]) := by
    simp [runHandler, hm, hf']
  refine ⟨hrun, ?_, ?_⟩
  · simp [getInfoAwait, hrun]
  · intro h
    rw [vstrEq_of_vnone_ne h] at hm
    exact Bool.noConfusion hm

/-- Witness for the amended C4 at a concrete failure reply. -/
theorem getInfo_failure_returns_reply_witness :
    vstrEq (vget [("msgid", Val.vstr "g2"), ("hResult", Val.vstr "WFS_ERR_X")]
      "msgid") "g2" = true ∧
    toStr (vget [("msgid", Val.vstr "g2"), ("hResult", Val.vstr "WFS_ERR_X")]
      "hResult") ≠ "WFS_SUCCESS" ∧
    ([("msgid", Val.vstr "g2"), ("hResult", Val.vstr "WFS_ERR_X")] : VMap) ≠ [] :=
  ⟨by rfl, by decide,
   (getInfo_failure_returns_reply ⟨"dev1", [("g2", "CAT")], []⟩ "g2" "CAT"
      [("msgid", Val.vstr "g2"), ("hResult", Val.vstr "WFS_ERR_X")] []
      (by rfl) (by decide)).2.2⟩

/-! ## C6: capability cache -/

theorem cacheGet_insert_self (cache : List (String × VMap)) (ident : String)
    (v : VMap) : cacheGet (cacheInsert ident v cache) ident = v := by
  induction cache with
  | nil => simp [cacheGet, cacheInsert, List.lookup]
  | cons kv rest ih =>
    cases hb : (ident == kv.1) with
    | true =>
      simp only [cacheInsert, hb, if_true]
      simp [cacheGet, List.lookup]
    | false =>
      simp only [cacheInsert, hb, Bool.false_eq_true, if_false]
      simp only [cacheGet, List.lookup, hb] at ih ⊢
      exact ih

theorem vcontains_of_vget_vmap {m : VMap} {k : String} {vm : VMap}
    (h : vget m k = Val.vmap vm) : vcontains m k = true := by
  cases hl : m.lookup k with
  | none =>
    rw [vget, hl] at h
    exact Val.noConfusion h
  | some v => simp [vcontains, hl]

/-- C6: with no cached entry for the device identity and a first backend
reply carrying a non-empty capability snapshot, the first `capabilities()`
call issues the single backend query and caches the snapshot, and a
second call issues no query and returns the identical cached value. -/
theorem capabilities_cached_once (cache : List (String × VMap))
    (ident : String) (data1 data2 : VMap) (vm : VMap)
    (habs : cache.lookup ident = none)
    (hbuf : vget data1 "lpBuffer" = Val.vmap vm)
    (hne : vm ≠ []) :
    (capabilities cache ident data1).2.2
      + (capabilities (capabilities cache ident data1).2.1 ident data2).2.2 = 1
    ∧ (capabilities (capabilities cache ident data1).2.1 ident data2).1
        = cacheGet (capabilities cache ident data1).2.1 ident
    ∧ (capabilities (capabilities cache ident data1).2.1 ident data2).1
        = (capabilities cache ident data1).1
    ∧ (capabilities cache ident data1).1 = vm := by
  have hmiss : cacheGet cache ident = [] := by simp [cacheGet, habs]
  have hcont := vcontains_of_vget_vmap hbuf
  have hfirst : capabilities cache ident data1
      = (vm, cacheInsert ident vm cache, 1) := by
    simp [capabilities, hmiss, getCapabilities, hcont, hbuf, toMapV,
      cacheGet_insert_self]
  have hvmne : vm.isEmpty = false := by
    cases hq : vm with
    | nil => exact absurd hq hne
    | cons a l => rfl
  have hsecond : capabilities (cacheInsert ident vm cache) ident data2
      = (vm, cacheInsert ident vm cache, 0) := by
    simp [capabilities, cacheGet_insert_self, hvmne]
  rw [hfirst]
  simp [hsecond, cacheGet_insert_self]

/-- Witness for C6 on a concrete empty cache and snapshot. -/
theorem capabilities_cached_once_witness :
    ([] : List (String × VMap)).lookup "dev1" = none ∧
    vget [("lpBuffer", Val.vmap [("canEject", Val.vstr "1")])] "lpBuffer"
      = Val.vmap [("canEject", Val.vstr "1")] ∧
    ([("canEject", Val.vstr "1")] : VMap) ≠ [] ∧
    ((capabilities [] "dev1" [("lpBuffer", Val.vmap [("canEject", Val.vstr "1")])]).2.2
      + (capabilities
          (capabilities [] "dev1"
            [("lpBuffer", Val.vmap [("canEject", Val.vstr "1")])]).2.1
          "dev1" []).2.2 = 1) :=
  ⟨rfl, rfl, List.cons_ne_nil _ _,
   (capabilities_cached_once [] "dev1"
      [("lpBuffer", Val.vmap [("canEject", Val.vstr "1")])] [] _
      rfl rfl (List.cons_ne_nil _ _)).1⟩

/-! ## C10: `syncCancel` return value -/

/-- C10: `syncCancel` returns `false` exactly when the cancel frame could
not be sent because the connection could not be established; whenever the
frame was written it returns `true` once its wait ends, for every possible
sequence of observed replies — in particular regardless of the
cancellation reply's `hResult`. -/
theorem syncCancel_false_iff_not_sent (connected : Bool)
    (uuid reqMsgId : String) (hs : List Handler) (st : PState)
    (evs : List SigEv) :
    syncCancel connected uuid reqMsgId hs st evs = false
      ↔ connected = false := by
  cases connected with
  | false => simp [syncCancel, cancel]
  | true => simp [syncCancel, cancel]

/-! ## C2: the `syncCancel` wait protocol -/

theorem any_append_of_any {p : SigEv → Bool} {l : List SigEv} (l' : List SigEv)
    (h : l.any p = true) : (l ++ l').any p = true := by
  simp [List.any_append, h]

theorem WaitInv_append {msgid reqMsgId : String} {seen : List SigEv}
    {s : WaitSt} (e : SigEv) (h : WaitInv msgid reqMsgId seen s) :
    WaitInv msgid reqMsgId (seen ++ [e]) s := by
  obtain ⟨h1, h2, h3, h4⟩ := h
  exact ⟨fun hc => any_append_of_any _ (h1 hc),
    fun hc => any_append_of_any _ (h2 hc),
    h3,
    fun hc => ⟨any_append_of_any _ ((h4 hc).1),
      (h4 hc).2.elim (fun hx => Or.inl (any_append_of_any _ hx))
        (fun hx => Or.inr (any_append_of_any _ hx))⟩⟩

theorem waitStep_inv {msgid reqMsgId : String} {s : WaitSt} {seen : List SigEv}
    (e : SigEv) (h : WaitInv msgid reqMsgId seen s) :
    WaitInv msgid reqMsgId (seen ++ [e]) (waitStep msgid reqMsgId s e) := by
  obtain ⟨sf, sc1, sc2, sx⟩ := s
  obtain ⟨h1, h2, h3, h4⟩ := h
  cases sx with
  | true =>
    have hstep : waitStep msgid reqMsgId ⟨sf, sc1, sc2, true⟩ e
        = ⟨sf, sc1, sc2, true⟩ := by simp [waitStep]
    rw [hstep]
    exact WaitInv_append e ⟨h1, h2, h3, h4⟩
  | false =>
    cases e with
    | cancelSig m =>
      cases sc1 with
      | false =>
        have hstep : waitStep msgid reqMsgId ⟨sf, false, sc2, false⟩
            (SigEv.cancelSig m) = ⟨sf, false, sc2, false⟩ := by
          simp [waitStep]
        rw [hstep]
        exact WaitInv_append _ ⟨h1, h2, h3, h4⟩
      | true =>
        cases hmt : vstrEq (vget m "msgid") msgid with
        | false =>
          have hstep : waitStep msgid reqMsgId ⟨sf, true, sc2, false⟩
              (SigEv.cancelSig m) = ⟨sf, true, sc2, false⟩ := by
            simp [waitStep, hmt]
          rw [hstep]
          exact WaitInv_append _ ⟨h1, h2, h3, h4⟩
        | true =>
          have hseen : (seen ++ [SigEv.cancelSig m]).any (isCancelFor msgid)
              = true := by
            simp [List.any_append, isCancelFor, hmt]
          cases sf with
          | true =>
            have hc2 : sc2 = false := by
              cases h3 rfl with
              | inl hh => exact Bool.noConfusion hh
              | inr hh => exact hh
            have hstep : waitStep msgid reqMsgId ⟨true, true, sc2, false⟩
                (SigEv.cancelSig m) = ⟨true, false, sc2, true⟩ := by
              simp [waitStep, hmt]
            rw [hstep]
            exact ⟨fun _ => hseen, fun _ => any_append_of_any _ (h2 hc2),
              fun _ => Or.inl rfl,
              fun _ => ⟨hseen, Or.inr (any_append_of_any _ (h2 hc2))⟩⟩
          | false =>
            cases hsucc : vstrEq (vget m "hResult") "WFS_SUCCESS" with
            | false =>
              have hfail : (seen ++ [SigEv.cancelSig m]).any
                  (isFailedCancelFor msgid) = true := by
                simp [List.any_append, isFailedCancelFor, hmt, hsucc]
              have hstep : waitStep msgid reqMsgId ⟨false, true, sc2, false⟩
                  (SigEv.cancelSig m) = ⟨false, false, sc2, true⟩ := by
                simp [waitStep, hmt, hsucc]
              rw [hstep]
              exact ⟨fun _ => hseen, fun hc => any_append_of_any _ (h2 hc),
                fun hf => Bool.noConfusion hf,
                fun _ => ⟨hseen, Or.inl hfail⟩⟩
            | true =>
              have hstep : waitStep msgid reqMsgId ⟨false, true, sc2, false⟩
                  (SigEv.cancelSig m) = ⟨true, false, sc2, false⟩ := by
                simp [waitStep, hmt, hsucc]
              rw [hstep]
              exact ⟨fun _ => hseen, fun hc => any_append_of_any _ (h2 hc),
                fun _ => Or.inl rfl, fun hx => Bool.noConfusion hx⟩
    | execSig m =>
      cases sc2 with
      | false =>
        have hstep : waitStep msgid reqMsgId ⟨sf, sc1, false, false⟩
            (SigEv.execSig m) = ⟨sf, sc1, false, false⟩ := by
          simp [waitStep]
        rw [hstep]
        exact WaitInv_append _ ⟨h1, h2, h3, h4⟩
      | true =>
        cases hmt : vstrEq (vget m "msgid") reqMsgId with
        | false =>
          have hstep : waitStep msgid reqMsgId ⟨sf, sc1, true, false⟩
              (SigEv.execSig m) = ⟨sf, sc1, true, false⟩ := by
            simp [waitStep, hmt]
          rw [hstep]
          exact WaitInv_append _ ⟨h1, h2, h3, h4⟩
        | true =>
          have hseen : (seen ++ [SigEv.execSig m]).any (isExecFor reqMsgId)
              = true := by
            simp [List.any_append, isExecFor, hmt]
          cases sf with
          | true =>
            have hc1 : sc1 = false := by
              cases h3 rfl with
              | inl hh => exact hh
              | inr hh => exact Bool.noConfusion hh
            have hstep : waitStep msgid reqMsgId ⟨true, sc1, true, false⟩
                (SigEv.execSig m) = ⟨true, sc1, false, true⟩ := by
              simp [waitStep, hmt]
            rw [hstep]
            exact ⟨fun _ => any_append_of_any _ (h1 hc1), fun _ => hseen,
              fun _ => Or.inr rfl,
              fun _ => ⟨any_append_of_any _ (h1 hc1), Or.inr hseen⟩⟩
          | false =>
            have hstep : waitStep msgid reqMsgId ⟨false, sc1, true, false⟩
                (SigEv.execSig m) = ⟨true, sc1, false, false⟩ := by
              simp [waitStep, hmt]
            rw [hstep]
            exact ⟨fun hc => any_append_of_any _ (h1 hc), fun _ => hseen,
              fun _ => Or.inr rfl, fun hx => Bool.noConfusion hx⟩

theorem waitFold_inv {msgid reqMsgId : String} :
    ∀ (evs : List SigEv) (s : WaitSt) (seen : List SigEv),
      WaitInv msgid reqMsgId seen s →
      WaitInv msgid reqMsgId (seen ++ evs)
        (evs.foldl (waitStep msgid reqMsgId) s) := by
  intro evs
  induction evs with
  | nil => intro s seen h; simpa using h
  | cons e rest ih =>
    intro s seen h
    have h' := waitStep_inv e h
    have := ih (waitStep msgid reqMsgId s e) (seen ++ [e]) h'
    simpa [List.append_assoc] using this

theorem waitStepNT_inv {msgid : String} {s : WaitSt} {seen : List SigEv}
    (e : SigEv) (hno : isExecFor "" e = false) (h : WaitInvNT msgid seen s) :
    WaitInvNT msgid (seen ++ [e]) (waitStep msgid "" s e) := by
  obtain ⟨sf, sc1, sc2, sx⟩ := s
  obtain ⟨hf, hc1, hexit⟩ := h
  simp only at hf hc1 hexit
  subst hf
  cases sx with
  | true =>
    simp only [Bool.not_true] at hc1
    subst hc1
    have hstep : waitStep msgid "" ⟨true, false, sc2, true⟩ e
        = ⟨true, false, sc2, true⟩ := by simp [waitStep]
    rw [hstep]
    exact ⟨rfl, rfl, (any_append_of_any [e] hexit.symm).symm⟩
  | false =>
    simp only [Bool.not_false] at hc1
    subst hc1
    have hanyf : seen.any (isCancelFor msgid) = false := hexit.symm
    cases e with
    | execSig m =>
      have hmt : vstrEq (vget m "msgid") "" = false := by
        simpa [isExecFor] using hno
      have hstep : waitStep msgid "" ⟨true, true, sc2, false⟩
          (SigEv.execSig m) = ⟨true, true, sc2, false⟩ := by
        simp [waitStep, hmt]
      rw [hstep]
      refine ⟨rfl, rfl, ?_⟩
      simp [List.any_append, hanyf, isCancelFor]
    | cancelSig m =>
      cases hmt : vstrEq (vget m "msgid") msgid with
      | false =>
        have hstep : waitStep msgid "" ⟨true, true, sc2, false⟩
            (SigEv.cancelSig m) = ⟨true, true, sc2, false⟩ := by
          simp [waitStep, hmt]
        rw [hstep]
        refine ⟨rfl, rfl, ?_⟩
        simp [List.any_append, hanyf, isCancelFor, hmt]
      | true =>
        have hstep : waitStep msgid "" ⟨true, true, sc2, false⟩
            (SigEv.cancelSig m) = ⟨true, false, sc2, true⟩ := by
          simp [waitStep, hmt]
        rw [hstep]
        refine ⟨rfl, rfl, ?_⟩
        simp [List.any_append, isCancelFor, hmt]

theorem waitFoldNT_inv {msgid : String} :
    ∀ (evs : List SigEv) (s : WaitSt) (seen : List SigEv),
      (∀ e ∈ evs, isExecFor "" e = false) →
      WaitInvNT msgid seen s →
      WaitInvNT msgid (seen ++ evs)
        (evs.foldl (waitStep msgid "") s) := by
  intro evs
  induction evs with
  | nil => intro s seen _ h; simpa using h
  | cons e rest ih =>
    intro s seen hno h
    have hstep : WaitInvNT msgid (seen ++ [e]) (waitStep msgid "" s e) :=
      waitStepNT_inv e (hno _ (List.mem_cons_self _ _)) h
    have := ih (waitStep msgid "" s e) (seen ++ [e])
      (fun x hx => hno x (List.mem_cons_of_mem _ hx)) hstep
    simpa [List.append_assoc] using this

/-- C2: for `syncCancel` with a non-empty target id, the wait loop exits
only after a cancellation reply matching the cancel id has been observed
and, unless that reply indicated failure, an execute completion matching
the target id has also been observed; both arrival orders of the two
replies end the wait; and with an empty target id (or a failing
cancellation reply) the wait ends exactly upon the matching cancellation
reply. -/
theorem syncCancel_wait_protocol (msgid reqMsgId : String)
    (evs : List SigEv) :
    (reqMsgId.isEmpty = false →
      (waitRun msgid reqMsgId evs).exited = true →
      evs.any (isCancelFor msgid) = true ∧
      (evs.any (isFailedCancelFor msgid) = true
        ∨ evs.any (isExecFor reqMsgId) = true))
  ∧ (reqMsgId.isEmpty = false →
      (waitRun msgid reqMsgId
        [SigEv.cancelSig [("msgid", Val.vstr msgid),
           ("hResult", Val.vstr "WFS_SUCCESS")],
         SigEv.execSig [("msgid", Val.vstr reqMsgId)]]).exited = true
      ∧ (waitRun msgid reqMsgId
        [SigEv.execSig [("msgid", Val.vstr reqMsgId)],
         SigEv.cancelSig [("msgid", Val.vstr msgid),
           ("hResult", Val.vstr "WFS_SUCCESS")]]).exited = true)
  ∧ ((∀ e ∈ evs, isExecFor "" e = false) →
      (waitRun msgid "" evs).exited = evs.any (isCancelFor msgid))
  ∧ (∀ m : VMap, vstrEq (vget m "msgid") msgid = true →
      vstrEq (vget m "hResult") "WFS_SUCCESS" = false →
      (waitRun msgid reqMsgId [SigEv.cancelSig m]).exited = true) := by
  refine ⟨?_, ?_, ?_, ?_⟩
  · intro hne hexit
    have hinit : WaitInv msgid reqMsgId [] (waitInit reqMsgId) := by
      refine ⟨?_, ?_, ?_, ?_⟩ <;> simp [waitInit, hne]
    have := waitFold_inv evs (waitInit reqMsgId) [] hinit
    simp only [List.nil_append] at this
    exact this.2.2.2 hexit
  · intro hne
    constructor <;>
      simp [waitRun, waitInit, waitStep, hne, vget, vstrEq, List.lookup]
  · intro hno
    have hinit : WaitInvNT msgid [] (waitInit "") := by
      refine ⟨rfl, rfl, rfl⟩
    have := waitFoldNT_inv evs (waitInit "") [] hno hinit
    simpa using this.2.2
  · intro m hmt hfail
    simp [waitRun, waitInit, waitStep, hmt, hfail]

/-- Witness for C2 at concrete ids and reply frames. -/
theorem syncCancel_wait_protocol_witness :
    ("m1" : String).isEmpty = false ∧
    ((waitRun "c1" "m1"
        [SigEv.cancelSig [("msgid", Val.vstr "c1"),
           ("hResult", Val.vstr "WFS_SUCCESS")],
         SigEv.execSig [("msgid", Val.vstr "m1")]]).exited = true
      ∧ (waitRun "c1" "m1"
        [SigEv.execSig [("msgid", Val.vstr "m1")],
         SigEv.cancelSig [("msgid", Val.vstr "c1"),
           ("hResult", Val.vstr "WFS_SUCCESS")]]).exited = true) :=
  ⟨rfl, (syncCancel_wait_protocol "c1" "m1" []).2.1 rfl⟩

/-! ## C8: connection failures, bad addresses and the warn-once set -/

/-- C8 counterexample: the address `"ftp://x"` is not surfaced as a
deduplicated connection failure.  `createSocket` returns a null transport
and logs one critical message on every socket-creation attempt — two
attempts log two messages, with the warn-once set never involved — and
the null transport violates the proxy constructor's `Q_ASSERT(m_io)`, so
no connect-style operation ever runs for this address. -/
theorem bad_address_cex :
    createSocket "ftp://x" "CRD1" = (none, 1)
    ∧ assertIo (createSocket "ftp://x" "CRD1").1 = false
    ∧ (createSocket "ftp://x" "CRD1").2 + (createSocket "ftp://x" "CRD1").2
        = 2 :=
  ⟨by rfl, by rfl, by rfl⟩

theorem runAttempts_zero_of_mem {ident : String} {w : List String}
    (hmem : ident ∈ w) : ∀ attempts, (runAttempts ident w attempts).2 = 0 := by
  intro attempts
  induction attempts with
  | nil => rfl
  | cons ok rest ih =>
    cases ok with
    | true => simpa [runAttempts, connectToServer] using ih
    | false => simpa [runAttempts, connectToServer, hmem] using ih

/-- C8 (amended): a genuine connect/handshake failure makes
`connectToServer` return failure, and across arbitrarily many repeated
attempts at most one warning is logged per device identity (the warn-once
set).  An unrecognized address form such as `"ftp://x"`, however, is not
routed through this path: `createSocket` logs an un-deduplicated critical
message on each socket-creation attempt and returns a null transport,
violating the proxy constructor's transport assertion. -/
theorem connect_failure_warned_once (ident : String) (w : List String)
    (attempts : List Bool) :
    (runAttempts ident w attempts).2 ≤ 1
    ∧ (connectToServer false ident w).1 = false
    ∧ createSocket "ftp://x" ident = (none, 1)
    ∧ assertIo (createSocket "ftp://x" ident).1 = false := by
  refine ⟨?_, ?_, by rfl, by rfl⟩
  · induction attempts generalizing w with
    | nil => exact Nat.zero_le 1
    | cons ok rest ih =>
      cases ok with
      | true => simpa [runAttempts, connectToServer] using ih w
      | false =>
        by_cases hmem : ident ∈ w
        · simpa [runAttempts, connectToServer, hmem] using ih w
        · have hz := runAttempts_zero_of_mem
            (List.mem_cons_self ident w) rest
          simp [runAttempts, connectToServer, hmem, hz]
  · by_cases hmem : ident ∈ w <;> simp [connectToServer, hmem]

/-! ## C3: disconnect fails every pending request -/

theorem completionMsgsFor_append (k : String) (a b : List Ev) :
    completionMsgsFor k (a ++ b)
      = completionMsgsFor k a ++ completionMsgsFor k b := by
  simp [completionMsgsFor, List.filter_append]

theorem completionMsgsFor_broadcasts (k : String) (l : List String)
    (msg : VMap) (dw : String) (lp : Val) :
    completionMsgsFor k (l.map (fun d => Ev.broadcastEv d msg dw lp)) = [] := by
  induction l with
  | nil => rfl
  | cons d rest ih => simp [completionMsgsFor, isCompletionFor, ih]

theorem runHandler_skip (registry : List String) (h : Handler) (st : PState)
    (msg : VMap) (hm : vstrEq (vget msg "msgid") (hmsgid h) = false) :
    runHandler registry h st msg = (some h, st, []) := by
  cases h with
  | execH msgid dw lp =>
    simp only [hmsgid] at hm
    simp [runHandler, hm]
  | cancelH msgid =>
    simp only [hmsgid] at hm
    simp [runHandler, hm]
  | getInfoH msgid category =>
    simp only [hmsgid] at hm
    simp [runHandler, hm]

theorem runHandler_connLost_fire (registry : List String) (h : Handler)
    (st : PState) (k v : String) (hk : hmsgid h = k) :
    ∃ evs, runHandler registry h st (connectionLostMsg k v)
        = (none, done k st, evs)
      ∧ completionMsgsFor k evs = [connectionLostMsg k v]
      ∧ ∀ k', k' ≠ k → completionMsgsFor k' evs = [] := by
  have hmv : vget (connectionLostMsg k v) "msgid" = Val.vstr k := rfl
  have hrv : vget (connectionLostMsg k v) "hResult"
      = Val.vstr "WFS_ERR_CONNECTION_LOST" := rfl
  cases h with
  | execH msgid dw lp =>
    simp only [hmsgid] at hk
    subst hk
    refine ⟨(registry.filter (fun d => d == st.ident)).map
        (fun d => Ev.broadcastEv d (connectionLostMsg msgid v) dw lp)
      ++ [Ev.executeCompleteEv (connectionLostMsg msgid v)], ?_, ?_, ?_⟩
    · simp [runHandler, hmv, hrv, vstrEq]
    · rw [completionMsgsFor_append, completionMsgsFor_broadcasts]
      simp [completionMsgsFor, isCompletionFor, hmv, vstrEq]
    · intro k' hne
      rw [completionMsgsFor_append, completionMsgsFor_broadcasts]
      simp [completionMsgsFor, isCompletionFor, hmv, vstrEq,
        beq_eq_false_iff_ne.mpr (Ne.symm hne)]
  | cancelH msgid =>
    simp only [hmsgid] at hk
    subst hk
    refine ⟨[Ev.cancelCompleteEv (connectionLostMsg msgid v)], ?_, ?_, ?_⟩
    · simp [runHandler, hmv, vstrEq]
    · simp [completionMsgsFor, isCompletionFor, hmv, vstrEq]
    · intro k' hne
      simp [completionMsgsFor, isCompletionFor, hmv, vstrEq,
        beq_eq_false_iff_ne.mpr (Ne.symm hne)]
  | getInfoH msgid category =>
    simp only [hmsgid] at hk
    subst hk
    refine ⟨[Ev.warnEv st.ident category "WFS_ERR_CONNECTION_LOST",
        Ev.getInfoDoneEv msgid (connectionLostMsg msgid v)], ?_, ?_, ?_⟩
    · simp [runHandler, hmv, hrv, vstrEq, toStr]
    · simp [completionMsgsFor, isCompletionFor]
    · intro k' hne
      simp [completionMsgsFor, isCompletionFor,
        beq_eq_false_iff_ne.mpr (Ne.symm hne)]

theorem dispatch_connLost_nomatch (registry : List String) (k v : String) :
    ∀ (hs : List Handler) (st : PState),
      (∀ h ∈ hs, (hmsgid h == k) = false) →
      dispatchHandlers registry hs st (connectionLostMsg k v) = (hs, st, []) := by
  intro hs
  induction hs with
  | nil => intro st _; rfl
  | cons h rest ih =>
    intro st hno
    have hmF : (hmsgid h == k) = false := hno h (List.mem_cons_self _ _)
    have hm : vstrEq (vget (connectionLostMsg k v) "msgid") (hmsgid h)
        = false := by
      have : vget (connectionLostMsg k v) "msgid" = Val.vstr k := rfl
      rw [this]
      simp only [vstrEq]
      exact beq_eq_false_iff_ne.mpr
        (fun hh => absurd (beq_iff_eq.mpr hh.symm) (by simp [hmF]))
    simp [dispatchHandlers, runHandler_skip registry h st _ hm,
      ih st (fun x hx => hno x (List.mem_cons_of_mem _ hx))]

theorem dispatch_connLost_one (registry : List String) (k v : String) :
    ∀ (hs : List Handler) (st : PState),
      (hs.filter (fun h => hmsgid h == k)).length = 1 →
      (dispatchHandlers registry hs st (connectionLostMsg k v)).2.1 = done k st
      ∧ completionMsgsFor k
          (dispatchHandlers registry hs st (connectionLostMsg k v)).2.2
          = [connectionLostMsg k v]
      ∧ (∀ k', k' ≠ k → completionMsgsFor k'
          (dispatchHandlers registry hs st (connectionLostMsg k v)).2.2 = [])
      ∧ (∀ k', k' ≠ k →
          (dispatchHandlers registry hs st (connectionLostMsg k v)).1.filter
              (fun h => hmsgid h == k')
            = hs.filter (fun h => hmsgid h == k'))
      ∧ ((dispatchHandlers registry hs st (connectionLostMsg k v)).1.filter
            (fun h => hmsgid h == k)).length = 0 := by
  intro hs
  induction hs with
  | nil => intro st hone; exact absurd hone (by simp)
  | cons h rest ih =>
    intro st hone
    cases hmF : (hmsgid h == k) with
    | true =>
      have hk : hmsgid h = k := beq_iff_eq.mp hmF
      have hrest : (rest.filter (fun h => hmsgid h == k)).length = 0 := by
        have := hone
        simp only [List.filter_cons, hmF, if_true, List.length_cons,
          Nat.succ_eq_add_one, Nat.add_left_eq_self] at this ⊢
        omega
      have hno : ∀ x ∈ rest, (hmsgid x == k) = false := by
        intro x hx
        by_contra hcon
        have hxT : (hmsgid x == k) = true := by
          cases hb : (hmsgid x == k) with
          | true => rfl
          | false => exact absurd hb hcon
        have : x ∈ rest.filter (fun h => hmsgid h == k) :=
          List.mem_filter.mpr ⟨hx, hxT⟩
        rw [List.length_eq_zero] at hrest
        simp [hrest] at this
      obtain ⟨evs, hrun, hK, hK'⟩ :=
        runHandler_connLost_fire registry h st k v hk
      have hdisp := dispatch_connLost_nomatch registry k v rest (done k st) hno
      refine ⟨?_, ?_, ?_, ?_, ?_⟩
      · simp [dispatchHandlers, hrun, hdisp]
      · simp [dispatchHandlers, hrun, hdisp, hK]
      · intro k' hne
        simp [dispatchHandlers, hrun, hdisp, hK' k' hne]
      · intro k' hne
        simp [dispatchHandlers, hrun, hdisp, List.filter_cons, hk,
          Ne.symm hne]
      · simp only [dispatchHandlers, hrun, hdisp, Option.toList_none,
          List.nil_append]
        exact hrest
    | false =>
      have hm : vstrEq (vget (connectionLostMsg k v) "msgid") (hmsgid h)
          = false := by
        have : vget (connectionLostMsg k v) "msgid" = Val.vstr k := rfl
        rw [this]
        simp only [vstrEq]
        exact beq_eq_false_iff_ne.mpr
          (fun hh => absurd (beq_iff_eq.mpr hh.symm) (by simp [hmF]))
      have hone' : (rest.filter (fun h => hmsgid h == k)).length = 1 := by
        simpa [List.filter_cons, hmF] using hone
      obtain ⟨ih1, ih2, ih3, ih4, ih5⟩ := ih st hone'
      have hskip := runHandler_skip registry h st (connectionLostMsg k v) hm
      refine ⟨?_, ?_, ?_, ?_, ?_⟩
      · simp [dispatchHandlers, hskip, ih1]
      · simp [dispatchHandlers, hskip]
        simpa using ih2
      · intro k' hne
        simp [dispatchHandlers, hskip]
        simpa using ih3 k' hne
      · intro k' hne
        simp only [dispatchHandlers, hskip]
        simp only [Option.toList_some, List.singleton_append,
          List.filter_cons]
        rw [ih4 k' hne]
      · simp only [dispatchHandlers, hskip]
        simp only [Option.toList_some, List.singleton_append,
          List.filter_cons, hmF]
        simpa using ih5

theorem classifier_connLost (st : PState) (k v : String) :
    classifierEvents st (connectionLostMsg k v) = [] := rfl

theorem emit_connLost_one (registry : List String) (k v : String)
    (hs : List Handler) (st : PState)
    (hone : (hs.filter (fun h => hmsgid h == k)).length = 1) :
    (emitMessage registry hs st (connectionLostMsg k v)).2.1 = done k st
    ∧ completionMsgsFor k
        (emitMessage registry hs st (connectionLostMsg k v)).2.2
        = [connectionLostMsg k v]
    ∧ (∀ k', k' ≠ k → completionMsgsFor k'
        (emitMessage registry hs st (connectionLostMsg k v)).2.2 = [])
    ∧ (∀ k', k' ≠ k →
        (emitMessage registry hs st (connectionLostMsg k v)).1.filter
            (fun h => hmsgid h == k')
          = hs.filter (fun h => hmsgid h == k')) := by
  obtain ⟨h1, h2, h3, h4, _⟩ := dispatch_connLost_one registry k v hs st hone
  refine ⟨?_, ?_, ?_, ?_⟩
  · simpa [emitMessage, classifier_connLost] using h1
  · simpa [emitMessage, classifier_connLost] using h2
  · intro k' hne
    simpa [emitMessage, classifier_connLost] using h3 k' hne
  · intro k' hne
    simpa [emitMessage, classifier_connLost] using h4 k' hne

theorem disconnected_fold (registry : List String) :
    ∀ (s2 : List (String × String)) (hs : List Handler) (st : PState)
      (acc : List Ev),
      st.pending = s2 →
      (s2.map Prod.fst).Nodup →
      (∀ kv ∈ s2, (hs.filter (fun h => hmsgid h == kv.1)).length = 1) →
      (∀ kv ∈ s2, completionMsgsFor kv.1 acc = []) →
      (s2.foldl
        (fun acc kv =>
          let r := emitMessage registry acc.1 acc.2.1
            (connectionLostMsg kv.1 kv.2)
          (r.1, r.2.1, acc.2.2 ++ r.2.2))
        (hs, st, acc)).2.1.pending = []
      ∧ (∀ kv ∈ s2, completionMsgsFor kv.1
          (s2.foldl
            (fun acc kv =>
              let r := emitMessage registry acc.1 acc.2.1
                (connectionLostMsg kv.1 kv.2)
              (r.1, r.2.1, acc.2.2 ++ r.2.2))
            (hs, st, acc)).2.2 = [connectionLostMsg kv.1 kv.2])
      ∧ (∀ k', k' ∉ s2.map Prod.fst → completionMsgsFor k'
          (s2.foldl
            (fun acc kv =>
              let r := emitMessage registry acc.1 acc.2.1
                (connectionLostMsg kv.1 kv.2)
              (r.1, r.2.1, acc.2.2 ++ r.2.2))
            (hs, st, acc)).2.2 = completionMsgsFor k' acc) := by
  intro s2
  induction s2 with
  | nil =>
    intro hs st acc hpend _ _ _
    exact ⟨hpend, fun kv hkv => absurd hkv (List.not_mem_nil kv),
      fun k' _ => rfl⟩
  | cons kv rest ih =>
    intro hs st acc hpend hnodup hcorr hacc
    obtain ⟨k, v⟩ := kv
    simp only [List.map_cons, List.nodup_cons] at hnodup
    obtain ⟨hknotin, hnodup'⟩ := hnodup
    obtain ⟨e1, e2, e3, e4⟩ := emit_connLost_one registry k v hs st
      (hcorr (k, v) (List.mem_cons_self _ _))
    have hpend1 : (emitMessage registry hs st (connectionLostMsg k v)).2.1.pending
        = rest := by
      rw [e1]
      simp only [done]
      rw [hpend]
      simp [premove]
    have hcorr1 : ∀ kv' ∈ rest,
        ((emitMessage registry hs st (connectionLostMsg k v)).1.filter
          (fun h => hmsgid h == kv'.1)).length = 1 := by
      intro kv' hkv'
      have hne : kv'.1 ≠ k := by
        intro hh
        exact hknotin (hh ▸ List.mem_map_of_mem Prod.fst hkv')
      rw [e4 kv'.1 hne]
      exact hcorr kv' (List.mem_cons_of_mem _ hkv')
    have hacc1 : ∀ kv' ∈ rest,
        completionMsgsFor kv'.1
          (acc ++ (emitMessage registry hs st (connectionLostMsg k v)).2.2)
          = [] := by
      intro kv' hkv'
      have hne : kv'.1 ≠ k := by
        intro hh
        exact hknotin (hh ▸ List.mem_map_of_mem Prod.fst hkv')
      rw [completionMsgsFor_append,
        hacc kv' (List.mem_cons_of_mem _ hkv'), e3 kv'.1 hne]
      rfl
    obtain ⟨f1, f2, f3⟩ := ih
      (emitMessage registry hs st (connectionLostMsg k v)).1
      (emitMessage registry hs st (connectionLostMsg k v)).2.1
      (acc ++ (emitMessage registry hs st (connectionLostMsg k v)).2.2)
      hpend1 hnodup' hcorr1 hacc1
    refine ⟨by simpa using f1, ?_, ?_⟩
    · intro kv' hkv'
      cases hkv' with
      | head =>
        have := f3 k hknotin
        simp only [List.foldl_cons]
        rw [this]
        rw [completionMsgsFor_append, hacc (k, v) (List.mem_cons_self _ _),
          e2]
        rfl
      | tail _ hmem =>
        have := f2 kv' hmem
        simpa using this
    · intro k' hk'
      simp only [List.map_cons, List.mem_cons, not_or] at hk'
      have := f3 k' hk'.2
      simp only [List.foldl_cons]
      rw [this, completionMsgsFor_append, e3 k' hk'.1]
      exact List.append_nil _

/-- C3: on an unsolicited transport disconnect, `disconnected` snapshots
the pending map and feeds, for each entry in snapshot order, a synthesized
failure message carrying `WFS_ERR_CONNECTION_LOST` and that request's
original command code through the normal dispatch path; provided each
pending id has exactly one live per-request connection, every pending
request receives exactly one failure completion carrying that message and
the pending set becomes empty. -/
theorem disconnected_fails_all_pending (registry : List String)
    (hs : List Handler) (st : PState)
    (hnodup : (st.pending.map Prod.fst).Nodup)
    (hcorr : ∀ kv ∈ st.pending,
      (hs.filter (fun h => hmsgid h == kv.1)).length = 1) :
    (disconnected registry hs st).2.1.pending = []
    ∧ ∀ kv ∈ st.pending,
        completionMsgsFor kv.1 (disconnected registry hs st).2.2
          = [connectionLostMsg kv.1 kv.2] := by
  obtain ⟨f1, f2, _⟩ := disconnected_fold registry st.pending hs st []
    rfl hnodup hcorr (fun _ _ => rfl)
  exact ⟨f1, f2⟩

/-- Witness for C3: two pending requests of different kinds both complete
with the synthesized connection-lost failure and the pending map empties. -/
theorem disconnected_fails_all_pending_witness :
    ((⟨"dev1", [("c1", ""), ("m1", "EJECT")], []⟩ : PState).pending.map
      Prod.fst).Nodup ∧
    (disconnected ["dev1"] [Handler.execH "m1" "EJECT" Val.vnone,
        Handler.cancelH "c1"]
      ⟨"dev1", [("c1", ""), ("m1", "EJECT")], []⟩).2.1.pending = [] :=
  ⟨by decide,
   (disconnected_fails_all_pending ["dev1"]
      [Handler.execH "m1" "EJECT" Val.vnone, Handler.cancelH "c1"]
      ⟨"dev1", [("c1", ""), ("m1", "EJECT")], []⟩
      (by decide)
      (by decide)).1⟩

/-! ## C7: transactional frame decoding -/

theorem parseNat32_encode (n : Nat) (r : List Nat) (h : n < 2 ^ 32) :
    parseNat32 (encodeNat32 n ++ r) = some (n, r) := by
  have harith : ((n / 2 ^ 24 % 256 * 256 + n / 2 ^ 16 % 256) * 256
      + n / 2 ^ 8 % 256) * 256 + n % 256 = n := by omega
  simp only [encodeNat32, List.cons_append, List.nil_append, parseNat32,
    harith]

theorem parseChars_serialize (cs : List Char) (r : List Nat) :
    parseChars cs.length (serializeChars cs ++ r) = some (cs, r) := by
  induction cs with
  | nil => rfl
  | cons c rest ih =>
    have hc : c.toNat < 2 ^ 32 := by
      simpa [Char.toNat] using c.val.toNat_lt
    simp only [serializeChars, List.length_cons, List.append_assoc,
      parseChars, parseNat32_encode _ _ hc, ih, Char.ofNat_toNat]

theorem parseStr_serialize (s : String) (r : List Nat)
    (h : s.data.length < 2 ^ 32) :
    parseStr (serializeStr s ++ r) = some (s, r) := by
  simp only [serializeStr, parseStr, List.append_assoc,
    parseNat32_encode _ _ h, parseChars_serialize]

theorem depth_le_serialize : ∀ (bound : Nat),
    (∀ v : Val, sizeOf v ≤ bound →
      depthVal v + 1 ≤ (serializeVal v).length)
    ∧ (∀ m : List (String × Val), sizeOf m ≤ bound →
      depthPairs m ≤ (serializePairs m).length) := by
  intro bound
  induction bound with
  | zero =>
    constructor
    · intro v hv
      cases v <;> simp at hv
    · intro m hm
      cases m <;> simp at hm
  | succ bound ih =>
    constructor
    · intro v hv
      cases v with
      | vnone => simp [serializeVal, depthVal]
      | vstr s => simp [serializeVal, depthVal]
      | vmap m =>
        have hm : sizeOf m ≤ bound := by
          simp at hv
          omega
        have := ih.2 m hm
        simp only [serializeVal, depthVal, List.length_cons,
          List.length_append, encodeNat32, List.length_nil]
        omega
    · intro m hm
      cases m with
      | nil => simp [serializePairs, depthPairs]
      | cons kv rest =>
        obtain ⟨k, v⟩ := kv
        have h1 : sizeOf v ≤ bound := by
          simp at hm
          omega
        have h2 : sizeOf rest ≤ bound := by
          simp at hm
          omega
        have hv := ih.1 v h1
        have hr := ih.2 rest h2
        simp only [serializePairs, depthPairs, List.length_append]
        omega

theorem parse_serialize_val : ∀ (fuel : Nat),
    (∀ (v : Val) (rest : List Nat), wfVal v = true →
      depthVal v + 1 ≤ fuel →
      parseVal fuel (serializeVal v ++ rest) = some (v, rest))
    ∧ (∀ (m : List (String × Val)) (rest : List Nat), wfPairs m = true →
      depthPairs m ≤ fuel →
      parsePairsWith (parseVal fuel) m.length (serializePairs m ++ rest)
        = some (m, rest)) := by
  intro fuel
  induction fuel with
  | zero =>
    constructor
    · intro v rest _ hd
      omega
    · intro m rest _ hd
      cases m with
      | nil => simp [serializePairs, parsePairsWith]
      | cons kv r2 =>
        obtain ⟨k, v⟩ := kv
        simp [depthPairs] at hd
  | succ fuel ih =>
    have hP : ∀ (v : Val) (rest : List Nat), wfVal v = true →
        depthVal v + 1 ≤ fuel + 1 →
        parseVal (fuel + 1) (serializeVal v ++ rest) = some (v, rest) := by
      intro v rest hw hd
      cases v with
      | vnone => simp [serializeVal, parseVal]
      | vstr s =>
        have hs : s.data.length < 2 ^ 32 := by
          simpa [wfVal] using hw
        simp only [serializeVal, List.cons_append, parseVal,
          parseStr_serialize s rest hs]
      | vmap m =>
        simp only [wfVal, Bool.and_eq_true, decide_eq_true_eq] at hw
        have hd' : depthPairs m ≤ fuel := by
          simp only [depthVal] at hd
          omega
        simp only [serializeVal, List.cons_append, List.append_assoc,
          parseVal, parseNat32_encode _ _ hw.1]
        rw [ih.2 m rest hw.2 hd']
    refine ⟨hP, ?_⟩
    intro m
    induction m with
    | nil =>
      intro rest _ _
      simp [serializePairs, parsePairsWith]
    | cons kv r2 ihm =>
      obtain ⟨k, v⟩ := kv
      intro rest hw hd
      simp only [wfPairs, Bool.and_eq_true, decide_eq_true_eq] at hw
      obtain ⟨⟨hk, hv⟩, hr⟩ := hw
      have hd1 : depthVal v + 1 ≤ fuel + 1 := by
        simp only [depthPairs] at hd
        omega
      have hd2 : depthPairs r2 ≤ fuel + 1 := by
        simp only [depthPairs] at hd
        omega
      simp only [serializePairs, List.append_assoc, List.length_cons,
        parsePairsWith, parseStr_serialize k _ hk, hP v _ hv hd1,
        ihm _ hr hd2]

theorem decodeFrame_encodeFrame (m : VMap) (rest : List Nat)
    (hwf : wfFrame m) :
    decodeFrame (encodeFrame m ++ rest) = some (m, rest) := by
  obtain ⟨hlen, hpairs, hL⟩ := hwf
  have heq : encodeFrame m ++ rest
      = encodeNat32 (serializeVMap m).length ++ (serializeVMap m ++ rest) := by
    simp [encodeFrame, List.append_assoc]
  have hle : (serializeVMap m).length ≤ (serializeVMap m ++ rest).length := by
    simp [List.length_append]
  have htake : (serializeVMap m ++ rest).take (serializeVMap m).length
      = serializeVMap m := List.take_left _ _
  have hdrop : (serializeVMap m ++ rest).drop (serializeVMap m).length
      = rest := List.drop_left _ _
  have hdepth : depthPairs m ≤ (serializeVMap m).length := by
    have h1 := (depth_le_serialize (sizeOf m)).2 m le_rfl
    have h2 : (serializePairs m).length ≤ (serializeVMap m).length := by
      simp [serializeVMap, List.length_append]
    omega
  have hparse : ∀ F : Nat, depthPairs m ≤ F →
      parseVMap F (serializeVMap m) = some (m, []) := by
    intro F hdF
    have hq := (parse_serialize_val F).2 m [] hpairs hdF
    simp only [serializeVMap, parseVMap, parseNat32_encode _ _ hlen]
    simpa [parsePairs] using hq
  rw [heq]
  simp only [decodeFrame, parseNat32_encode _ _ hL, hle, if_true, htake,
    hparse ((serializeVMap m).length + 1) (by omega), hdrop]

theorem parseNat32_short {p : List Nat} (h : p.length < 4) :
    parseNat32 p = none := by
  cases p with
  | nil => rfl
  | cons a p1 =>
    cases p1 with
    | nil => rfl
    | cons b p2 =>
      cases p2 with
      | nil => rfl
      | cons c p3 =>
        cases p3 with
        | nil => rfl
        | cons d p4 =>
          simp only [List.length_cons] at h
          omega

theorem decodeFrame_incomplete (m : VMap) (p : List Nat)
    (hL : (serializeVMap m).length < 2 ^ 32)
    (hp : p <+: encodeFrame m) (hne : p ≠ encodeFrame m) :
    decodeFrame p = none := by
  obtain ⟨q, hq⟩ := hp
  have hlen4 : (encodeNat32 (serializeVMap m).length).length = 4 := rfl
  have hframe : (encodeFrame m).length = 4 + (serializeVMap m).length := by
    simp only [encodeFrame, List.length_append, encodeNat32,
      List.length_cons, List.length_nil]
  have hplen : p.length < (encodeFrame m).length := by
    have hsum := congrArg List.length hq
    simp only [List.length_append] at hsum
    rcases Nat.lt_or_ge p.length (encodeFrame m).length with h | h
    · exact h
    · exfalso
      have hq0 : q.length = 0 := by omega
      rw [List.length_eq_zero] at hq0
      subst hq0
      simp only [List.append_nil] at hq
      exact hne hq
  by_cases hsh : p.length < 4
  · simp [decodeFrame, parseNat32_short hsh]
  · push_neg at hsh
    have hpeq : p = encodeNat32 (serializeVMap m).length
        ++ (serializeVMap m).take (p.length - 4) := by
      have h1 : p = (encodeFrame m).take p.length := by
        rw [← hq]
        exact (List.take_left _ _).symm
      have h2 : encodeFrame m
          = encodeNat32 (serializeVMap m).length ++ serializeVMap m := rfl
      conv_lhs => rw [h1, h2]
      rw [List.take_append_eq_append_take,
        List.take_of_length_le (by rw [hlen4]; exact hsh), hlen4]
    have hlt : p.length - 4 < (serializeVMap m).length := by omega
    have htlen : ((serializeVMap m).take (p.length - 4)).length
        = p.length - 4 := by
      rw [List.length_take]
      omega
    rw [hpeq]
    simp only [decodeFrame, parseNat32_encode _ _ hL]
    rw [if_neg (by omega)]

theorem decodeFrame_consumes {buf : List Nat} {m : VMap} {r : List Nat}
    (h : decodeFrame buf = some (m, r)) : r.length < buf.length := by
  cases buf with
  | nil => exact absurd h (by simp [decodeFrame, parseNat32])
  | cons b0 t0 =>
    cases t0 with
    | nil => exact absurd h (by simp [decodeFrame, parseNat32])
    | cons b1 t1 =>
      cases t1 with
      | nil => exact absurd h (by simp [decodeFrame, parseNat32])
      | cons b2 t2 =>
        cases t2 with
        | nil => exact absurd h (by simp [decodeFrame, parseNat32])
        | cons b3 t3 =>
          simp only [decodeFrame, parseNat32] at h
          by_cases hc : ((b0 * 256 + b1) * 256 + b2) * 256 + b3 ≤ t3.length
          · rw [if_pos hc] at h
            cases hpv : parseVMap (((b0 * 256 + b1) * 256 + b2) * 256 + b3 + 1)
                (t3.take (((b0 * 256 + b1) * 256 + b2) * 256 + b3)) with
            | none => rw [hpv] at h; exact absurd h (by simp)
            | some pr =>
              obtain ⟨m1, r1⟩ := pr
              rw [hpv] at h
              cases r1 with
              | nil =>
                simp only [Option.some.injEq, Prod.mk.injEq] at h
                rw [← h.2]
                simp only [List.length_drop, List.length_cons]
                omega
              | cons x xs => exact absurd h (by simp)
          · rw [if_neg hc] at h
            exact absurd h (by simp)

theorem readyReadAux_nil (fuel : Nat) : readyReadAux fuel [] = ([], []) := by
  cases fuel with
  | zero => rfl
  | succ f => simp [readyReadAux, decodeFrame, parseNat32]

theorem readyReadAux_none {buf : List Nat} (fuel : Nat)
    (h : decodeFrame buf = none) : readyReadAux fuel buf = ([], buf) := by
  cases fuel with
  | zero => rfl
  | succ f => simp [readyReadAux, h]

theorem readyReadAux_fuel_irrel : ∀ (f1 f2 : Nat) (buf : List Nat),
    buf.length ≤ f1 → buf.length ≤ f2 →
    readyReadAux f1 buf = readyReadAux f2 buf := by
  intro f1
  induction f1 with
  | zero =>
    intro f2 buf h1 _
    have hb : buf = [] := by
      cases buf with
      | nil => rfl
      | cons a l => simp at h1
    subst hb
    rw [readyReadAux_nil, readyReadAux_nil]
  | succ f1 ih =>
    intro f2 buf h1 h2
    cases hd : decodeFrame buf with
    | none => rw [readyReadAux_none _ hd, readyReadAux_none _ hd]
    | some pr =>
      obtain ⟨m, r⟩ := pr
      have hcons := decodeFrame_consumes hd
      cases f2 with
      | zero => omega
      | succ f2' =>
        simp only [readyReadAux, hd]
        rw [ih f2' r (by omega) (by omega)]

theorem readyReadAux_ends : ∀ (fuel : Nat) (buf : List Nat),
    buf.length ≤ fuel → decodeFrame (readyReadAux fuel buf).2 = none := by
  intro fuel
  induction fuel with
  | zero =>
    intro buf h
    have hb : buf = [] := by
      cases buf with
      | nil => rfl
      | cons a l => simp at h
    subst hb
    rw [readyReadAux_nil]
    rfl
  | succ f ih =>
    intro buf h
    cases hd : decodeFrame buf with
    | none =>
      rw [readyReadAux_none _ hd]
      exact hd
    | some pr =>
      obtain ⟨m, r⟩ := pr
      have hcons := decodeFrame_consumes hd
      simp only [readyReadAux, hd]
      exact ih r (by omega)

theorem readyRead_frames : ∀ (frames : List VMap) (p : List Nat),
    (∀ f ∈ frames, wfFrame f) → decodeFrame p = none →
    readyRead (frames.foldr (fun f acc => encodeFrame f ++ acc) p)
      = (frames, p) := by
  intro frames
  induction frames with
  | nil =>
    intro p _ hp
    simp only [List.foldr_nil, readyRead]
    rw [readyReadAux_none _ hp]
  | cons f rest ih =>
    intro p hwf hp
    have hfirst : decodeFrame
        (encodeFrame f ++ rest.foldr (fun f acc => encodeFrame f ++ acc) p)
        = some (f, rest.foldr (fun f acc => encodeFrame f ++ acc) p) :=
      decodeFrame_encodeFrame f _ (hwf f (List.mem_cons_self _ _))
    have hlen : (encodeFrame f
        ++ rest.foldr (fun f acc => encodeFrame f ++ acc) p).length
        = (encodeFrame f).length
          + (rest.foldr (fun f acc => encodeFrame f ++ acc) p).length :=
      List.length_append _ _
    have hpos : 0 < (encodeFrame f).length := by
      simp [encodeFrame, encodeNat32]
    simp only [List.foldr_cons, readyRead]
    cases hlb : (encodeFrame f
        ++ rest.foldr (fun f acc => encodeFrame f ++ acc) p).length with
    | zero => omega
    | succ n =>
      simp only [readyReadAux, hfirst]
      have hrw := readyReadAux_fuel_irrel n
        (rest.foldr (fun f acc => encodeFrame f ++ acc) p).length
        (rest.foldr (fun f acc => encodeFrame f ++ acc) p)
        (by omega) le_rfl
      rw [hrw]
      have := ih p (fun x hx => hwf x (List.mem_cons_of_mem _ hx)) hp
      simp only [readyRead] at this
      rw [this]

/-- C7: frame decoding is transactional — a decode attempt on a buffered
stream holding only a proper prefix of a frame consumes no bytes and
produces no message — and the `readyRead` loop decodes and dispatches the
buffered complete frames one at a time, in order, until no complete frame
remains in the stream. -/
theorem frame_decoding_transactional :
    (∀ (m : VMap) (p : List Nat), wfFrame m → p <+: encodeFrame m →
      p ≠ encodeFrame m → decodeAttempt p = (none, p))
    ∧ (∀ (m : VMap) (rest : List Nat), wfFrame m →
      decodeFrame (encodeFrame m ++ rest) = some (m, rest))
    ∧ (∀ buf : List Nat, decodeFrame (readyRead buf).2 = none)
    ∧ (∀ (frames : List VMap) (p : List Nat), (∀ f ∈ frames, wfFrame f) →
      decodeFrame p = none →
      readyRead (frames.foldr (fun f acc => encodeFrame f ++ acc) p)
        = (frames, p)) := by
  refine ⟨?_, decodeFrame_encodeFrame, ?_, readyRead_frames⟩
  · intro m p hwf hp hne
    have hd := decodeFrame_incomplete m p hwf.2.2 hp hne
    simp [decodeAttempt, hd]
  · intro buf
    exact readyReadAux_ends buf.length buf le_rfl

/-- Witness for C7: the empty-map frame encodes to eight bytes; a
three-byte prefix decodes to nothing without consuming input, and the
loop over one complete frame plus a partial byte dispatches exactly that
frame and retains the partial byte. -/
theorem frame_decoding_transactional_witness :
    wfFrame ([] : VMap) ∧
    decodeAttempt ((encodeFrame ([] : VMap)).take 3)
      = (none, (encodeFrame ([] : VMap)).take 3) ∧
    readyRead ([([] : VMap)].foldr (fun f acc => encodeFrame f ++ acc) [0])
      = ([[]], [0]) := by
  have henc : encodeFrame ([] : VMap) = [0, 0, 0, 4, 0, 0, 0, 0] := by
    simp [encodeFrame, serializeVMap, serializePairs, encodeNat32]
  have hwf : wfFrame ([] : VMap) := by
    refine ⟨by norm_num, by simp [wfPairs], ?_⟩
    simp [serializeVMap, serializePairs, encodeNat32]
  refine ⟨hwf, ?_, ?_⟩
  · exact frame_decoding_transactional.1 [] _ hwf (List.take_prefix _ _)
      (by rw [henc]; decide)
  · exact frame_decoding_transactional.2.2.2 [[]] [0]
      (by
        intro f hf
        rw [List.mem_singleton] at hf
        rw [hf]
        exact hwf)
      (by rfl)

end QXfs
